import Mathlib

/-!
# Verification of `metastreams_passwd` (file-backed password store)

Shallow embedding of `src/metastreams_passwd/passwordfile.py`.

The source is a small credential store: a `PasswordFile` over a JSON file
of shape `version: 3, users: mapping username -> argon2 hash string`,
delegating hashing to an external argon2 `PasswordHasher` capability.

Modelling choices (all justified against the source):
* JSON values are modelled by `JVal` (numbers, strings, objects, null).
  Python `dict`s are association lists preserving insertion order; JSON
  floats and booleans are outside the model (no claim exercises them).
* The filesystem is the pair of the canonical path and the temporary
  sibling path (`filepath + "~"`): `FS`.  A file is absent (`none`),
  unparsable text, or a parsed JSON value.  Writes of whole files are
  primitive steps; byte-level formatting below the parsed value is below
  the model's granularity.  File permissions (`chmod`) carry no claim and
  are not modelled.
* Python exceptions are the `Err` type.  The source raises bare
  `ValueError`s with distinguishing messages; `json.JSONDecodeError`
  (a `ValueError` subclass) models an unparsable file, `KeyError` a
  missing dictionary key, and `AttributeError`/`TypeError` the failures
  of `.get`/item assignment on a non-dict.
* Every operation is state passing: it returns `Except Err alpha × FS`,
  the final filesystem being returned also when an exception escapes
  (Python exceptions do not roll back side effects; in the source every
  raising path happens to perform no write before raising).
* The argon2 `PasswordHasher` is an external collaborator; it is the
  abstract `Hasher` structure.  `verify` either succeeds, raises
  `VerifyMismatchError`, or raises `InvalidHash` (argon2's `verify`
  never returns `False`), captured by `VerifyOutcome`.
-/

namespace MetastreamsPasswd

/-- JSON values as produced by `json.load`.  `dict` keeps Python's
insertion order; keys of a parsed JSON object are unique. -/
inductive JVal where
  | num (n : Int)
  | str (s : String)
  | dict (d : List (String × JVal))
  | null
deriving Repr

/-- Decidable equality of JSON values (`deriving` cannot handle the
nested `List` occurrence, so it is spelled out). -/
def JVal.decEq : (a b : JVal) → Decidable (a = b)
  | .num x, .num y =>
      if h : x = y then .isTrue (by rw [h]) else .isFalse (by simp [h])
  | .num _, .str _ => .isFalse (by simp)
  | .num _, .dict _ => .isFalse (by simp)
  | .num _, .null => .isFalse (by simp)
  | .str _, .num _ => .isFalse (by simp)
  | .str x, .str y =>
      if h : x = y then .isTrue (by rw [h]) else .isFalse (by simp [h])
  | .str _, .dict _ => .isFalse (by simp)
  | .str _, .null => .isFalse (by simp)
  | .dict _, .num _ => .isFalse (by simp)
  | .dict _, .str _ => .isFalse (by simp)
  | .dict _, .null => .isFalse (by simp)
  | .dict [], .dict [] => .isTrue rfl
  | .dict [], .dict (_ :: _) => .isFalse (by simp)
  | .dict (_ :: _), .dict [] => .isFalse (by simp)
  | .dict ((k1, v1) :: r1), .dict ((k2, v2) :: r2) =>
      match String.decEq k1 k2, JVal.decEq v1 v2, JVal.decEq (.dict r1) (.dict r2) with
      | .isTrue hk, .isTrue hv, .isTrue hr =>
          .isTrue (by
            cases hk; cases hv
            have h2 : r1 = r2 := by injection hr
            rw [h2])
      | .isFalse hk, _, _ =>
          .isFalse (by
            intro h
            have h2 := JVal.dict.inj h
            simp only [List.cons.injEq, Prod.mk.injEq] at h2
            exact hk h2.1.1)
      | _, .isFalse hv, _ =>
          .isFalse (by
            intro h
            have h2 := JVal.dict.inj h
            simp only [List.cons.injEq, Prod.mk.injEq] at h2
            exact hv h2.1.2)
      | _, _, .isFalse hr =>
          .isFalse (by
            intro h
            have h2 := JVal.dict.inj h
            simp only [List.cons.injEq, Prod.mk.injEq] at h2
            exact hr (congrArg JVal.dict h2.2))
  | .null, .num _ => .isFalse (by simp)
  | .null, .str _ => .isFalse (by simp)
  | .null, .dict _ => .isFalse (by simp)
  | .null, .null => .isTrue rfl

instance : DecidableEq JVal := JVal.decEq

/-- Content of an existing file: either text that parses to a JSON value,
or text `json.load` rejects. -/
inductive FileContent where
  | parsed (j : JVal)
  | unparsable
deriving Repr, DecidableEq

/-- The slice of the filesystem the store touches: the canonical path
(`self._filepath`) and the temporary sibling (`self._filepath + "~"`).
`none` means the path does not exist. -/
structure FS where
  file : Option FileContent
  temp : Option FileContent
deriving Repr, DecidableEq

/-- Python exceptions raised by the source.  `valueError` carries the
message; `jsonDecodeError` is `json.JSONDecodeError`, a `ValueError`
subclass.  `keyError` is raised by `data['users']` on a missing key,
`attributeError` by `data.get(...)` on a non-dict, `typeError` by item
assignment on a non-dict. -/
inductive Err where
  | valueError (msg : String)
  | jsonDecodeError
  | keyError (k : String)
  | attributeError
  | typeError
deriving Repr, DecidableEq

/-- Whether an exception is (an instance of) Python's `ValueError`:
the class the spec's `FormatError`, `AlreadyExists`, `NotFound` and
`CorruptHash` taxa are raised as. -/
def Err.isValueError : Err → Bool
  | .valueError _ => true
  | .jsonDecodeError => true
  | _ => false

/-- The spec's `FormatError` taxon: the errors `_loadUsers` raises for a
wrong/missing version (`ValueError("Unexpected version")`) or an
unparsable file (`json.JSONDecodeError`). -/
def Err.isFormatError : Err → Bool
  | .valueError msg => msg = "Unexpected version"
  | .jsonDecodeError => true
  | _ => false

/-- Python `d.get(k)` on a dict represented as an insertion-ordered
association list (keys of a Python dict are unique). -/
def dictGet {β : Type} : List (String × β) → String → Option β
  | [], _ => none
  | kv :: rest, k => if kv.1 = k then some kv.2 else dictGet rest k

/-- Python `d[k] = v`: replace the value at `k` in place, else append. -/
def dictSet {β : Type} : List (String × β) → String → β → List (String × β)
  | [], k, v => [(k, v)]
  | kv :: rest, k, v => if kv.1 = k then (k, v) :: rest else kv :: dictSet rest k v

/-- Python `d.pop(k, None)`: drop the entry at `k` if present. -/
def dictPop {β : Type} : List (String × β) → String → List (String × β)
  | [], _ => []
  | kv :: rest, k => if kv.1 = k then rest else kv :: dictPop rest k

/-- The `users` mapping handed around by `_Storage`: username to opaque
hash string (a Python dict, insertion ordered). -/
abbrev Users := List (String × String)

/-- View the entries of a JSON object as users entries (all values must
be strings). -/
def asUsersList : List (String × JVal) → Option Users
  | [] => some []
  | kv :: rest =>
      match kv.2, asUsersList rest with
      | .str s, some u => some ((kv.1, s) :: u)
      | _, _ => none

/-- View a JSON value as a users mapping (an object all of whose values
are strings).  The source never checks this shape; it would fail later at
the first dict operation on a non-dict.  The model surfaces that failure
at load time as `typeError`. -/
def asUsers : JVal → Option Users
  | .dict d => asUsersList d
  | _ => none

/-- Re-serialize a users mapping as the JSON value `json.dump` writes. -/
def usersToJVal (u : Users) : JVal :=
  .dict (u.map (fun kv => (kv.1, .str kv.2)))

/-- Embeds `_Storage.version`. -/
def storageVersion : Int := 3

/-- Python's `data.get('version') == self.version`: true exactly when
the value at `version` is the JSON number 3 (comparison of a JSON value
to an `int`; booleans and floats are outside the model). -/
def versionMatches : Option JVal → Bool
  | some (.num n) => n == storageVersion
  | _ => false

/-- Embeds `_Storage._loadUsers`: empty mapping when the file is absent;
otherwise parse, check `data.get('version') == 3`, return
`data['users']`. -/
def loadUsers : Option FileContent → Except Err Users
  | none => .ok []
  | some .unparsable => .error .jsonDecodeError
  | some (.parsed (.dict data)) =>
      if versionMatches (dictGet data "version") then
        match dictGet data "users" with
        | none => .error (.keyError "users")
        | some uj =>
            match asUsers uj with
            | some u => .ok u
            | none => .error .typeError
      else .error (.valueError "Unexpected version")
  | some (.parsed _) => .error .attributeError

/-- The initial file `_storeUsers` materializes at the canonical path
when none exists: `version: 3, users: empty`. -/
def initFileData : List (String × JVal) :=
  [("version", .num storageVersion), ("users", .dict [])]

/-- Embeds `_Storage._storeUsers`: materialize the initial file if the path is
absent, re-read the current structure, replace its `users` field, write
the whole structure to the `~` sibling, rename it over the canonical
path (which removes the sibling). -/
def storeUsers (users : Users) (fs : FS) : Except Err Unit × FS :=
  match fs.file with
  | none =>
      (.ok (), { file := some (.parsed (.dict (dictSet initFileData "users" (usersToJVal users)))),
                 temp := none })
  | some .unparsable => (.error .jsonDecodeError, fs)
  | some (.parsed (.dict data)) =>
      (.ok (), { file := some (.parsed (.dict (dictSet data "users" (usersToJVal users)))),
                 temp := none })
  | some (.parsed _) => (.error .typeError, fs)

/-- The filesystem states observable at the canonical/temp paths during
`_storeUsers` (a crash or a concurrent reader can observe any of them).
The head is the state before any step.  Writing a file is NOT one
primitive step: `open(path, 'w')` creates/truncates the file and
`json.dump` fills it incrementally, so while a write to `path` is in
progress that path holds text that does not parse — the `unparsable`
state, standing for the empty file and every partially written prefix.
In particular, when the canonical path is absent, the source writes the
initial file in place at the canonical path (not via the rename), so the
canonical path itself passes through `unparsable` before holding the
complete initial file.  When the canonical path already exists, only the
temporary sibling passes through `unparsable`; the canonical path
changes solely by the final rename. -/
def storeUsersTrace (users : Users) (fs : FS) : List FS :=
  if fs.file.isNone then
    let newFile : FileContent :=
      .parsed (.dict (dictSet initFileData "users" (usersToJVal users)))
    [fs,
     { fs with file := some .unparsable },
     { fs with file := some (.parsed (.dict initFileData)) },
     { fs with file := some (.parsed (.dict initFileData)), temp := some .unparsable },
     { fs with file := some (.parsed (.dict initFileData)), temp := some newFile },
     { file := some newFile, temp := none }]
  else
    match fs.file with
    | some (.parsed (.dict data)) =>
        let newFile : FileContent :=
          .parsed (.dict (dictSet data "users" (usersToJVal users)))
        [fs,
         { fs with temp := some .unparsable },
         { fs with temp := some newFile },
         { file := some newFile, temp := none }]
    | _ => [fs]

/-- Embeds `_Storage.set`. -/
def storageSet (username hashed : String) (fs : FS) : Except Err Unit × FS :=
  match loadUsers fs.file with
  | .error e => (.error e, fs)
  | .ok d => storeUsers (dictSet d username hashed) fs

/-- Embeds `_Storage.remove`. -/
def storageRemove (username : String) (fs : FS) : Except Err Unit × FS :=
  match loadUsers fs.file with
  | .error e => (.error e, fs)
  | .ok d => storeUsers (dictPop d username) fs

/-- Embeds `_Storage.get`. -/
def storageGet (username : String) (fs : FS) : Except Err (Option String) :=
  match loadUsers fs.file with
  | .error e => .error e
  | .ok d => .ok (dictGet d username)

/-- Decidability of the string order through the character list (the
same order: `String.le_iff_toList_le`), so that concrete sorts reduce
inside the kernel. -/
instance (priority := 1100) strDecLE : DecidableRel (fun a b : String => a ≤ b) := fun a b =>
  decidable_of_iff (a.data ≤ b.data) (String.le_iff_toList_le).symm

/-- Decidable equality of `Except` results. -/
def exceptDecEq {ε α : Type} [DecidableEq ε] [DecidableEq α] :
    (x y : Except ε α) → Decidable (x = y)
  | .ok a, .ok b => if h : a = b then .isTrue (by rw [h]) else .isFalse (by simp [h])
  | .ok _, .error _ => .isFalse (by simp)
  | .error _, .ok _ => .isFalse (by simp)
  | .error a, .error b => if h : a = b then .isTrue (by rw [h]) else .isFalse (by simp [h])

instance {ε α : Type} [DecidableEq ε] [DecidableEq α] : DecidableEq (Except ε α) :=
  exceptDecEq

/-- Embeds `_Storage.listkeys`: `list(sorted(self._loadUsers().keys()))`.  The
sort is Python's `sorted` on strings, i.e. lexicographic by code point,
which coincides with Lean's `String` order. -/
def listkeys (fs : FS) : Except Err (List String) :=
  match loadUsers fs.file with
  | .error e => .error e
  | .ok d => .ok ((d.map Prod.fst).insertionSort (· ≤ ·))

/-- Outcome of argon2's `PasswordHasher.verify`: returns `True`, raises
`VerifyMismatchError`, or raises `InvalidHash`. -/
inductive VerifyOutcome where
  | ok
  | mismatch
  | invalidHash
deriving Repr, DecidableEq

/-- The external hashing capability (`ph = PasswordHasher()` in the
source): `hash`, `verify`, `check_needs_rehash`. -/
structure Hasher where
  hash : String → String
  verify : String → String → VerifyOutcome
  needsRehash : String → Bool

/-- Embeds `PasswordFile.__init__` over a path: constructing `_Storage` runs
`_loadUsers` once, so construction fails iff the file is malformed. -/
def mkPasswordFile (fs : FS) : Except Err Unit :=
  match loadUsers fs.file with
  | .error e => .error e
  | .ok _ => .ok ()

/-- Embeds `PasswordFile.listUsernames`. -/
def listUsernames (fs : FS) : Except Err (List String) :=
  listkeys fs

/-- Embeds `PasswordFile.hasUser`: `username in self._storage.listkeys()`. -/
def hasUser (username : String) (fs : FS) : Except Err Bool :=
  match listkeys fs with
  | .error e => .error e
  | .ok l => .ok (l.contains username)

/-- Embeds `PasswordFile.addUser`. -/
def addUser (h : Hasher) (username password : String) (fs : FS) :
    Except Err Unit × FS :=
  match hasUser username fs with
  | .error e => (.error e, fs)
  | .ok true => (.error (.valueError "User already exists."), fs)
  | .ok false => storageSet username (h.hash password) fs

/-- Embeds `PasswordFile.removeUser`. -/
def removeUser (username : String) (fs : FS) : Except Err Unit × FS :=
  storageRemove username fs

/-- Embeds `PasswordFile.setPassword`. -/
def setPassword (h : Hasher) (username password : String) (fs : FS) :
    Except Err Unit × FS :=
  match hasUser username fs with
  | .error e => (.error e, fs)
  | .ok false => (.error (.valueError "User does not exist."), fs)
  | .ok true => storageSet username (h.hash password) fs

/-- Embeds `PasswordFile.validateUser`: fetch the stored hash; `None` means
`False` (the `and` short-circuits before any hashing call); verify;
`VerifyMismatchError` means `False`; `InvalidHash` becomes a
`ValueError` naming the user; on success a hash needing rehash is
renewed through `setPassword` before returning `True`. -/
def validateUser (h : Hasher) (username password : String) (fs : FS) :
    Except Err Bool × FS :=
  match storageGet username fs with
  | .error e => (.error e, fs)
  | .ok none => (.ok false, fs)
  | .ok (some hashed) =>
      match h.verify hashed password with
      | .mismatch => (.ok false, fs)
      | .invalidHash =>
          (.error (.valueError ("Unexpected hash for user " ++ username ++ ", check file!")), fs)
      | .ok =>
          if h.needsRehash hashed then
            match setPassword h username password fs with
            | (.ok _, fs') => (.ok true, fs')
            | (.error e, fs') => (.error e, fs')
          else (.ok true, fs)

/-- Add a sequence of users (password derived from the name) in order,
stopping at the first failure; used to state insertion-order scenarios. -/
def addAllUsers (h : Hasher) (names : List String) (fs : FS) : Except Err Unit × FS :=
  match names with
  | [] => (.ok (), fs)
  | n :: rest =>
      match addUser h n ("pw-" ++ n) fs with
      | (.ok _, fs') => addAllUsers h rest fs'
      | (.error e, fs') => (.error e, fs')

/-- A concrete stand-in hashing capability for witness evaluations.
Fresh hashes carry the `new:` parameter prefix; hashes with the outdated
`old:` prefix still verify but report as needing a rehash; anything else
is an unrecognized hash format.  (Prefix tests go through the character
list so they evaluate inside the kernel.) -/
def demoHasher : Hasher where
  hash p := "new:" ++ p
  verify hs p :=
    if hs.data.take 4 == "new:".data || hs.data.take 4 == "old:".data then
      (if hs = "new:" ++ p || hs = "old:" ++ p then .ok else .mismatch)
    else .invalidHash
  needsRehash hs := hs.data.take 4 == "old:".data

/-- A concrete well-formed store for witness evaluations: `one` has a
hash under outdated parameters, `two` a current one, `bad` a corrupt
one. -/
def demoFS : FS :=
  ⟨some (.parsed (.dict [("version", .num 3),
     ("users", .dict [("one", .str "old:secret"), ("two", .str "new:s2"),
                      ("bad", .str "corrupt")])])), none⟩

/-- Users mapping of `demoFS`. -/
def demoUsers : Users :=
  [("one", "old:secret"), ("two", "new:s2"), ("bad", "corrupt")]

/-! ## Dictionary lemmas -/

theorem dictGet_dictSet_self {β : Type} (d : List (String × β)) (k : String) (v : β) :
    dictGet (dictSet d k v) k = some v := by
  induction d with
  | nil => simp [dictGet, dictSet]
  | cons kv rest ih =>
      by_cases h : kv.1 = k
      · simp [dictSet, dictGet, h]
      · simp [dictSet, dictGet, h, ih]

theorem dictGet_dictSet_ne {β : Type} (d : List (String × β)) {k k' : String} (v : β)
    (h : k' ≠ k) : dictGet (dictSet d k v) k' = dictGet d k' := by
  induction d with
  | nil => simp [dictGet, dictSet, Ne.symm h]
  | cons kv rest ih =>
      simp only [dictSet]
      by_cases hk : kv.1 = k
      · simp [dictGet, hk, Ne.symm h]
      · simp [dictGet, hk, ih]

theorem dictSet_preserve {β : Type} (d : List (String × β)) {k : String} {v : β}
    (h : dictGet d k = some v) : dictSet d k v = d := by
  induction d with
  | nil => simp [dictGet] at h
  | cons kv rest ih =>
      by_cases hk : kv.1 = k
      · simp only [dictGet, if_pos hk, Option.some.injEq] at h
        simp only [dictSet, if_pos hk, ← h]
        rw [← hk]
      · simp only [dictGet, if_neg hk] at h
        simp [dictSet, hk, ih h]

theorem dictGet_eq_none_of_not_mem {β : Type} {d : List (String × β)} {k : String}
    (h : k ∉ d.map Prod.fst) : dictGet d k = none := by
  induction d with
  | nil => simp [dictGet]
  | cons kv rest ih =>
      simp only [List.map_cons, List.mem_cons] at h
      push_neg at h
      simp [dictGet, Ne.symm h.1, ih h.2]

theorem mem_of_dictGet_eq_some {β : Type} {d : List (String × β)} {k : String} {v : β}
    (h : dictGet d k = some v) : k ∈ d.map Prod.fst := by
  induction d with
  | nil => simp [dictGet] at h
  | cons kv rest ih =>
      by_cases hk : kv.1 = k
      · simp [hk]
      · simp only [dictGet, hk, if_false] at h
        simp [ih h]

theorem dictPop_of_not_mem {β : Type} {d : List (String × β)} {k : String}
    (h : k ∉ d.map Prod.fst) : dictPop d k = d := by
  induction d with
  | nil => rfl
  | cons kv rest ih =>
      simp only [List.map_cons, List.mem_cons] at h
      push_neg at h
      simp [dictPop, Ne.symm h.1, ih h.2]

theorem mem_keys_dictSet_self {β : Type} (d : List (String × β)) (k : String) (v : β) :
    k ∈ (dictSet d k v).map Prod.fst := by
  induction d with
  | nil => simp [dictSet]
  | cons kv rest ih =>
      by_cases hk : kv.1 = k
      · simp [dictSet, hk]
      · simp only [dictSet, hk, if_false, List.map_cons, List.mem_cons]
        exact Or.inr ih

theorem asUsersList_map (u : Users) :
    asUsersList (u.map (fun kv => (kv.1, JVal.str kv.2))) = some u := by
  induction u with
  | nil => rfl
  | cons kv rest ih => simp [asUsersList, ih]

theorem asUsers_usersToJVal (u : Users) : asUsers (usersToJVal u) = some u := by
  simp [usersToJVal, asUsers, asUsersList_map]

theorem asUsersList_inv {d : List (String × JVal)} {u : Users}
    (h : asUsersList d = some u) : d = u.map (fun kv => (kv.1, JVal.str kv.2)) := by
  induction d generalizing u with
  | nil =>
      simp only [asUsersList, Option.some.injEq] at h
      simp [← h]
  | cons kv rest ih =>
      simp only [asUsersList] at h
      cases hv : kv.2 <;> rw [hv] at h
      case str s =>
        cases hr : asUsersList rest <;> rw [hr] at h
        case none => simp at h
        case some l =>
          simp only [Option.some.injEq] at h
          rw [← h]
          simp only [List.map_cons]
          rw [← ih hr, ← hv]
      all_goals simp at h

theorem asUsers_inv {j : JVal} {u : Users} (h : asUsers j = some u) :
    j = usersToJVal u := by
  cases j with
  | dict d =>
      rw [usersToJVal]
      exact congrArg JVal.dict (asUsersList_inv (by simpa [asUsers] using h))
  | num n => simp [asUsers] at h
  | str s => simp [asUsers] at h
  | null => simp [asUsers] at h

/-! ## Load/store lemmas -/

theorem loadUsers_ok_inv {fc : FileContent} {u : Users}
    (h : loadUsers (some fc) = .ok u) :
    ∃ data uj, fc = .parsed (.dict data) ∧
      versionMatches (dictGet data "version") = true ∧
      dictGet data "users" = some uj ∧ asUsers uj = some u := by
  cases fc with
  | unparsable => simp [loadUsers] at h
  | parsed j =>
      cases j with
      | dict data =>
          simp only [loadUsers] at h
          by_cases hv : versionMatches (dictGet data "version") = true
          · rw [if_pos hv] at h
            cases hu : dictGet data "users" with
            | none => rw [hu] at h; simp at h
            | some uj =>
                rw [hu] at h
                dsimp only at h
                cases ha : asUsers uj with
                | none => rw [ha] at h; simp at h
                | some u' =>
                    rw [ha] at h
                    dsimp only at h
                    simp only [Except.ok.injEq] at h
                    exact ⟨data, uj, rfl, hv, hu, by rw [ha, h]⟩
          · rw [if_neg hv] at h
            simp at h
      | num n => simp [loadUsers] at h
      | str s => simp [loadUsers] at h
      | null => simp [loadUsers] at h

theorem storeUsers_ok {fs : FS} {d : Users} (users : Users)
    (h : loadUsers fs.file = .ok d) :
    (storeUsers users fs).1 = .ok () ∧
    loadUsers (storeUsers users fs).2.file = .ok users ∧
    (storeUsers users fs).2.temp = none := by
  cases hf : fs.file with
  | none =>
      have h1 : dictGet (dictSet initFileData "users" (usersToJVal users)) "version"
          = some (.num storageVersion) := by
        rw [dictGet_dictSet_ne _ _ (by decide : ("version" : String) ≠ "users")]
        rfl
      have h2 : dictGet (dictSet initFileData "users" (usersToJVal users)) "users"
          = some (usersToJVal users) := dictGet_dictSet_self _ _ _
      simp [storeUsers, hf, loadUsers, h1, h2, versionMatches, asUsers_usersToJVal]
  | some fc =>
      obtain ⟨data, uj, rfl, hv, hu, ha⟩ := loadUsers_ok_inv (hf ▸ h)
      have h1 : dictGet (dictSet data "users" (usersToJVal users)) "version"
          = dictGet data "version" :=
        dictGet_dictSet_ne _ _ (by decide : ("version" : String) ≠ "users")
      have h2 : dictGet (dictSet data "users" (usersToJVal users)) "users"
          = some (usersToJVal users) := dictGet_dictSet_self _ _ _
      simp [storeUsers, hf, loadUsers, h1, h2, hv, asUsers_usersToJVal]

/-! ## Read-operation lemmas -/

theorem storageGet_ok {fs : FS} {d : Users} (uname : String)
    (h : loadUsers fs.file = .ok d) :
    storageGet uname fs = .ok (dictGet d uname) := by
  simp [storageGet, h]

theorem listkeys_ok {fs : FS} {d : Users} (h : loadUsers fs.file = .ok d) :
    listkeys fs = .ok ((d.map Prod.fst).insertionSort (· ≤ ·)) := by
  simp [listkeys, h]

theorem hasUser_true {fs : FS} {d : Users} {uname : String}
    (h : loadUsers fs.file = .ok d) (hm : uname ∈ d.map Prod.fst) :
    hasUser uname fs = .ok true := by
  simp [hasUser, listkeys, h, List.elem_iff, hm]

theorem hasUser_false {fs : FS} {d : Users} {uname : String}
    (h : loadUsers fs.file = .ok d) (hm : uname ∉ d.map Prod.fst) :
    hasUser uname fs = .ok false := by
  simp [hasUser, listkeys, h, List.elem_iff, hm]

/-! ## Claim theorems -/

/-- C1: for every username `u` and password `p`, on a store whose file is
absent or well-formed and does not contain `u`, `addUser(u,p)` succeeds
and a subsequent `validateUser(u,p)` returns true, including on a new
`PasswordFile` constructed over the same path (the credential survives
persistence and reload).  The only assumption on the hashing capability
is that it verifies its own fresh hash. -/
theorem addUser_validateUser_roundtrip
    (h : Hasher) (uname pw : String) (fs : FS) (d : Users)
    (hload : loadUsers fs.file = .ok d)
    (habsent : uname ∉ d.map Prod.fst)
    (hverify : h.verify (h.hash pw) pw = .ok) :
    ∃ fs', addUser h uname pw fs = (.ok (), fs') ∧
      mkPasswordFile fs' = .ok () ∧
      ∃ fs'', validateUser h uname pw fs' = (.ok true, fs'') := by
  have hHas := hasUser_false hload habsent
  have hSet : addUser h uname pw fs = storeUsers (dictSet d uname (h.hash pw)) fs := by
    simp [addUser, hHas, storageSet, hload]
  obtain ⟨hok, hload', htemp⟩ := storeUsers_ok (dictSet d uname (h.hash pw)) hload
  have haddEq : addUser h uname pw fs
      = (.ok (), (storeUsers (dictSet d uname (h.hash pw)) fs).2) := by
    rw [hSet, ← hok]
  refine ⟨(storeUsers (dictSet d uname (h.hash pw)) fs).2, haddEq, ?_, ?_⟩
  · simp [mkPasswordFile, hload']
  · have hget : storageGet uname (storeUsers (dictSet d uname (h.hash pw)) fs).2
        = .ok (some (h.hash pw)) := by
      rw [storageGet_ok uname hload', dictGet_dictSet_self]
    by_cases hre : h.needsRehash (h.hash pw) = true
    · have hHas' := hasUser_true hload' (mem_keys_dictSet_self d uname (h.hash pw))
      have hsp : setPassword h uname pw (storeUsers (dictSet d uname (h.hash pw)) fs).2
          = storeUsers (dictSet (dictSet d uname (h.hash pw)) uname (h.hash pw))
              (storeUsers (dictSet d uname (h.hash pw)) fs).2 := by
        simp [setPassword, hHas', storageSet, hload']
      obtain ⟨hok2, _, _⟩ := storeUsers_ok
        (dictSet (dictSet d uname (h.hash pw)) uname (h.hash pw)) hload'
      rcases hsu : storeUsers (dictSet (dictSet d uname (h.hash pw)) uname (h.hash pw))
          (storeUsers (dictSet d uname (h.hash pw)) fs).2 with ⟨e, fs2⟩
      rw [hsu] at hok2
      dsimp only at hok2
      subst hok2
      refine ⟨fs2, ?_⟩
      simp [validateUser, hget, hverify, hre, hsp, hsu]
    · refine ⟨(storeUsers (dictSet d uname (h.hash pw)) fs).2, ?_⟩
      simp [validateUser, hget, hverify, hre]

/-- Witness for C1 at concrete inputs. -/
theorem addUser_validateUser_roundtrip_witness :
    ∃ fs', addUser demoHasher "John" "password" ⟨none, none⟩ = (.ok (), fs') ∧
      mkPasswordFile fs' = .ok () ∧
      ∃ fs'', validateUser demoHasher "John" "password" fs' = (.ok true, fs'') :=
  addUser_validateUser_roundtrip demoHasher "John" "password" ⟨none, none⟩ []
    (by decide) (by decide) (by decide)

/-- C2: when the stored hash of `u` verifies but needs a rehash, a single
`validateUser` call returns true and persists a fresh hash for `u` that
no longer needs rehashing, while every other user's stored hash is
unchanged (byte-identical). -/
theorem validateUser_rehash_on_login
    (h : Hasher) (uname pw : String) (fs : FS) (d : Users) (hs : String)
    (hload : loadUsers fs.file = .ok d)
    (hstored : dictGet d uname = some hs)
    (hverify : h.verify hs pw = .ok)
    (hneeds : h.needsRehash hs = true)
    (hfresh : h.needsRehash (h.hash pw) = false) :
    ∃ fs', validateUser h uname pw fs = (.ok true, fs') ∧
      ∃ d', loadUsers fs'.file = .ok d' ∧
        dictGet d' uname = some (h.hash pw) ∧
        h.needsRehash (h.hash pw) = false ∧
        ∀ v, v ≠ uname → dictGet d' v = dictGet d v := by
  have hget2 : storageGet uname fs = .ok (some hs) := by
    rw [storageGet_ok uname hload, hstored]
  have hHas := hasUser_true hload (mem_of_dictGet_eq_some hstored)
  have hsp : setPassword h uname pw fs = storeUsers (dictSet d uname (h.hash pw)) fs := by
    simp [setPassword, hHas, storageSet, hload]
  obtain ⟨hok, hload', _⟩ := storeUsers_ok (dictSet d uname (h.hash pw)) hload
  rcases hsu : storeUsers (dictSet d uname (h.hash pw)) fs with ⟨e, fs'⟩
  rw [hsu] at hok hload'
  dsimp only at hok hload'
  subst hok
  refine ⟨fs', ?_, dictSet d uname (h.hash pw), hload', dictGet_dictSet_self _ _ _,
    hfresh, fun v hv => dictGet_dictSet_ne _ _ hv⟩
  simp [validateUser, hget2, hverify, hneeds, hsp, hsu]

/-- Witness for C2 at concrete inputs. -/
theorem validateUser_rehash_on_login_witness :
    ∃ fs', validateUser demoHasher "one" "secret" demoFS = (.ok true, fs') ∧
      ∃ d', loadUsers fs'.file = .ok d' ∧
        dictGet d' "one" = some (demoHasher.hash "secret") ∧
        demoHasher.needsRehash (demoHasher.hash "secret") = false ∧
        ∀ v, v ≠ "one" → dictGet d' v = dictGet demoUsers v :=
  validateUser_rehash_on_login demoHasher "one" "secret" demoFS demoUsers "old:secret"
    (by decide) (by decide) (by decide) (by decide) (by decide)

/-- C10: when the stored hash verifies and does not need a rehash,
`validateUser` returns true and leaves the filesystem (canonical and
temporary path alike) untouched. -/
theorem validateUser_ok_no_rehash_no_write
    (h : Hasher) (uname pw : String) (fs : FS) (d : Users) (hs : String)
    (hload : loadUsers fs.file = .ok d)
    (hstored : dictGet d uname = some hs)
    (hverify : h.verify hs pw = .ok)
    (hnone : h.needsRehash hs = false) :
    validateUser h uname pw fs = (.ok true, fs) := by
  have hget2 : storageGet uname fs = .ok (some hs) := by
    rw [storageGet_ok uname hload, hstored]
  simp [validateUser, hget2, hverify, hnone]

/-- Witness for C10 at concrete inputs. -/
theorem validateUser_ok_no_rehash_no_write_witness :
    validateUser demoHasher "two" "s2" demoFS = (.ok true, demoFS) :=
  validateUser_ok_no_rehash_no_write demoHasher "two" "s2" demoFS demoUsers "new:s2"
    (by decide) (by decide) (by decide) (by decide)

/-- C5: `addUser` on an existing username fails with the
`AlreadyExists` error (`ValueError('User already exists.')`) for every
password, and the failed call leaves the filesystem unchanged. -/
theorem addUser_existing_fails
    (h : Hasher) (uname : String) (fs : FS) (d : Users)
    (hload : loadUsers fs.file = .ok d)
    (hm : uname ∈ d.map Prod.fst) :
    ∀ pw, addUser h uname pw fs = (.error (.valueError "User already exists."), fs) := by
  intro pw
  simp [addUser, hasUser_true hload hm]

/-- Witness for C5 at concrete inputs. -/
theorem addUser_existing_fails_witness :
    addUser demoHasher "one" "anything" demoFS
      = (.error (.valueError "User already exists."), demoFS) :=
  addUser_existing_fails demoHasher "one" demoFS demoUsers (by decide) (by decide) "anything"

/-- C6: `setPassword` on an unknown username fails with the `NotFound`
error (`ValueError('User does not exist.')`) for every password, and the
failed call leaves the filesystem unchanged. -/
theorem setPassword_unknown_fails
    (h : Hasher) (uname : String) (fs : FS) (d : Users)
    (hload : loadUsers fs.file = .ok d)
    (hm : uname ∉ d.map Prod.fst) :
    ∀ pw, setPassword h uname pw fs = (.error (.valueError "User does not exist."), fs) := by
  intro pw
  simp [setPassword, hasUser_false hload hm]

/-- Witness for C6 at concrete inputs. -/
theorem setPassword_unknown_fails_witness :
    setPassword demoHasher "Piet" "pw" demoFS
      = (.error (.valueError "User does not exist."), demoFS) :=
  setPassword_unknown_fails demoHasher "Piet" demoFS demoUsers (by decide) (by decide) "pw"

/-- C9: `removeUser` on an unknown username succeeds and is a no-op on
the store's state: the users mapping it denotes is unchanged, and when
the canonical file exists its (parsed) content is exactly unchanged.
(When no file exists yet, the source still runs `_storeUsers`, which
materializes the file; the mapping it denotes is the same empty one.) -/
theorem removeUser_unknown_noop
    (uname : String) (fs : FS) (d : Users)
    (hload : loadUsers fs.file = .ok d)
    (hm : uname ∉ d.map Prod.fst) :
    ∃ fs', removeUser uname fs = (.ok (), fs') ∧
      loadUsers fs'.file = .ok d ∧
      (∀ fc, fs.file = some fc → fs'.file = some fc) := by
  have hrm : removeUser uname fs = storeUsers d fs := by
    simp [removeUser, storageRemove, hload, dictPop_of_not_mem hm]
  obtain ⟨hok, hload', _⟩ := storeUsers_ok d hload
  rcases hsu : storeUsers d fs with ⟨e, fs'⟩
  rw [hsu] at hok hload'
  dsimp only at hok hload'
  subst hok
  refine ⟨fs', by rw [hrm, hsu], hload', ?_⟩
  intro fc hfc
  obtain ⟨data, uj, hfc2, hv, hu, ha⟩ := loadUsers_ok_inv (hfc ▸ hload)
  have hpres : dictSet data "users" (usersToJVal d) = data := by
    rw [← asUsers_inv ha]
    exact dictSet_preserve data hu
  have hsu2 : storeUsers d fs = (.ok (), ⟨some (.parsed (.dict data)), none⟩) := by
    simp [storeUsers, hfc, hfc2, hpres]
  rw [hsu] at hsu2
  have hfs' : fs' = ⟨some (.parsed (.dict data)), none⟩ := congrArg Prod.snd hsu2
  rw [hfs', hfc2]

/-- Witness for C9 at concrete inputs. -/
theorem removeUser_unknown_noop_witness :
    ∃ fs', removeUser "Piet" demoFS = (.ok (), fs') ∧
      loadUsers fs'.file = .ok demoUsers ∧
      (∀ fc, demoFS.file = some fc → fs'.file = some fc) :=
  removeUser_unknown_noop "Piet" demoFS demoUsers (by decide) (by decide)

/-- C3: on a loadable store, `validateUser` returns a plain false both
for an unknown username — in which case the hashing capability is never
consulted, so the result is the same for every capability — and for a
stored hash that does not verify; in both cases the filesystem is
untouched, so the two outcomes are indistinguishable to the caller.  It
raises an error exactly when the stored hash is in a format the
capability does not recognize, and that error names the offending
username. -/
theorem validateUser_false_and_error_cases
    (h : Hasher) (uname pw : String) (fs : FS) (d : Users)
    (hload : loadUsers fs.file = .ok d) :
    (dictGet d uname = none →
      ∀ h' : Hasher, validateUser h' uname pw fs = (.ok false, fs)) ∧
    (∀ hs, dictGet d uname = some hs → h.verify hs pw = .mismatch →
      validateUser h uname pw fs = (.ok false, fs)) ∧
    (∀ e fs', validateUser h uname pw fs = (.error e, fs') →
      ∃ hs, dictGet d uname = some hs ∧ h.verify hs pw = .invalidHash ∧
        e = .valueError ("Unexpected hash for user " ++ uname ++ ", check file!") ∧
        fs' = fs) := by
  refine ⟨?_, ?_, ?_⟩
  · intro hnone h'
    have hget2 : storageGet uname fs = .ok none := by
      rw [storageGet_ok uname hload, hnone]
    simp [validateUser, hget2]
  · intro hs hsome hmm
    have hget2 : storageGet uname fs = .ok (some hs) := by
      rw [storageGet_ok uname hload, hsome]
    simp [validateUser, hget2, hmm]
  · intro e fs' herr
    cases hg : dictGet d uname with
    | none =>
        have hget2 : storageGet uname fs = .ok none := by
          rw [storageGet_ok uname hload, hg]
        have hval : validateUser h uname pw fs = (.ok false, fs) := by
          simp [validateUser, hget2]
        rw [hval] at herr
        simp at herr
    | some hs =>
        have hget2 : storageGet uname fs = .ok (some hs) := by
          rw [storageGet_ok uname hload, hg]
        cases hv : h.verify hs pw with
        | mismatch =>
            have hval : validateUser h uname pw fs = (.ok false, fs) := by
              simp [validateUser, hget2, hv]
            rw [hval] at herr
            simp at herr
        | invalidHash =>
            have hval : validateUser h uname pw fs
                = (.error (.valueError ("Unexpected hash for user " ++ uname ++ ", check file!")), fs) := by
              simp [validateUser, hget2, hv]
            rw [hval] at herr
            simp only [Prod.mk.injEq, Except.error.injEq] at herr
            exact ⟨hs, rfl, hv, herr.1.symm, herr.2.symm⟩
        | ok =>
            cases hre : h.needsRehash hs with
            | false =>
                have hval : validateUser h uname pw fs = (.ok true, fs) := by
                  simp [validateUser, hget2, hv, hre]
                rw [hval] at herr
                simp at herr
            | true =>
                have hHas := hasUser_true hload (mem_of_dictGet_eq_some hg)
                have hsp : setPassword h uname pw fs
                    = storeUsers (dictSet d uname (h.hash pw)) fs := by
                  simp [setPassword, hHas, storageSet, hload]
                obtain ⟨hok, _, _⟩ := storeUsers_ok (dictSet d uname (h.hash pw)) hload
                rcases hsu : storeUsers (dictSet d uname (h.hash pw)) fs with ⟨e2, fs2⟩
                rw [hsu] at hok
                dsimp only at hok
                subst hok
                have hval : validateUser h uname pw fs = (.ok true, fs2) := by
                  simp [validateUser, hget2, hv, hre, hsp, hsu]
                rw [hval] at herr
                simp at herr

/-- Witness for C3 at concrete inputs: an unknown user and a wrong
password both yield a plain false with the store untouched. -/
theorem validateUser_false_and_error_cases_witness :
    validateUser demoHasher "Piet" "pw" demoFS = (.ok false, demoFS) ∧
    validateUser demoHasher "two" "wrong" demoFS = (.ok false, demoFS) :=
  ⟨(validateUser_false_and_error_cases demoHasher "Piet" "pw" demoFS demoUsers
      (by decide)).1 (by decide) demoHasher,
   (validateUser_false_and_error_cases demoHasher "two" "wrong" demoFS demoUsers
      (by decide)).2.1 "new:s2" (by decide) (by decide)⟩

/-- C8: `listUsernames` returns the stored usernames in ascending
lexical order with no duplicates (under the dict invariant that stored
keys are unique), and adding `john`, `graham`, `hank` to an empty store
in any of the six insertion orders yields
`["graham","hank","john"]`. -/
theorem listUsernames_sorted_nodup
    (fs : FS) (d : Users)
    (hload : loadUsers fs.file = .ok d)
    (hnd : (d.map Prod.fst).Nodup) :
    (∃ l, listUsernames fs = .ok l ∧ l.Sorted (· ≤ ·) ∧ l.Nodup ∧
      (∀ x, x ∈ l ↔ x ∈ d.map Prod.fst)) ∧
    (∀ ns ∈ [["john", "graham", "hank"], ["john", "hank", "graham"],
             ["graham", "john", "hank"], ["graham", "hank", "john"],
             ["hank", "john", "graham"], ["hank", "graham", "john"]],
      listUsernames (addAllUsers demoHasher ns ⟨none, none⟩).2
        = .ok ["graham", "hank", "john"]) := by
  constructor
  · refine ⟨(d.map Prod.fst).insertionSort (· ≤ ·), listkeys_ok hload, ?_, ?_, ?_⟩
    · exact List.sorted_insertionSort _ _
    · exact ((List.perm_insertionSort _ _).nodup_iff).mpr hnd
    · intro x
      simp
  · decide

/-- Witness for C8 at concrete inputs. -/
theorem listUsernames_sorted_nodup_witness :
    ∃ l, listUsernames demoFS = .ok l ∧ l.Sorted (· ≤ ·) ∧ l.Nodup ∧
      (∀ x, x ∈ l ↔ x ∈ demoUsers.map Prod.fst) :=
  (listUsernames_sorted_nodup demoFS demoUsers (by decide) (by decide)).1

/-- C4 counterexample: a parsable JSON object declaring version 3 but
missing the `users` field makes `load` fail with a `KeyError` — which is
not the `FormatError` (a `ValueError`) the claim requires. -/
theorem loadUsers_missing_users_keyError :
    loadUsers (some (.parsed (.dict [("version", .num 3)])))
      = .error (.keyError "users") ∧
    (Err.keyError "users").isFormatError = false ∧
    (Err.keyError "users").isValueError = false :=
  ⟨by decide, by decide, by decide⟩

/-- C4 (amended): for every existing file, `load` fails with
`FormatError` whenever the declared version does not equal the number 3
(including an absent version field) or the file is unparsable; a
parsable object with the right version but missing the `users` field
also makes `load` fail, but with a `KeyError` rather than `FormatError`;
a file containing version 2 with an empty users object makes
construction of the store fail with `FormatError`. -/
theorem loadUsers_format_errors
    (data : List (String × JVal)) :
    (versionMatches (dictGet data "version") = false →
      loadUsers (some (.parsed (.dict data))) = .error (.valueError "Unexpected version") ∧
      (Err.valueError "Unexpected version").isFormatError = true) ∧
    (loadUsers (some .unparsable) = .error .jsonDecodeError ∧
      Err.jsonDecodeError.isFormatError = true) ∧
    (versionMatches (dictGet data "version") = true → dictGet data "users" = none →
      loadUsers (some (.parsed (.dict data))) = .error (.keyError "users")) ∧
    mkPasswordFile ⟨some (.parsed (.dict [("version", .num 2), ("users", .dict [])])), none⟩
      = .error (.valueError "Unexpected version") := by
  refine ⟨?_, ⟨rfl, rfl⟩, ?_, by decide⟩
  · intro hv
    exact ⟨by simp [loadUsers, hv], rfl⟩
  · intro hv hu
    simp [loadUsers, hv, hu]

/-- Witness for C4 (amended) at concrete inputs: a string-typed version
field is rejected with the `FormatError`-class `ValueError`. -/
theorem loadUsers_format_errors_witness :
    loadUsers (some (.parsed (.dict [("version", .str "3"), ("users", .dict [])])))
      = .error (.valueError "Unexpected version") :=
  ((loadUsers_format_errors [("version", .str "3"), ("users", .dict [])]).1 (by decide)).1

/-- C7 counterexample: storing `[("john","h1")]` from an absent file
writes in place at the canonical path, so the trace of observable
states contains a canonical file that is empty or partially written
(it does not parse), and then the complete materialized initial file —
neither of which is the prior state of the canonical path (absent) nor
the fully persisted final content.  A reader of the canonical path can
therefore observe a half-written file, and the atomic rename is not the
only operation that changes what the canonical path resolves to. -/
theorem storeUsers_intermediate_state :
    (⟨some .unparsable, none⟩ : FS) ∈ storeUsersTrace [("john", "h1")] ⟨none, none⟩ ∧
    loadUsers (some .unparsable) = .error .jsonDecodeError ∧
    (⟨some (.parsed (.dict initFileData)), none⟩ : FS)
        ∈ storeUsersTrace [("john", "h1")] ⟨none, none⟩ ∧
    (some (.parsed (.dict initFileData)) : Option FileContent) ≠ (⟨none, none⟩ : FS).file ∧
    some (.parsed (.dict initFileData))
      ≠ (storeUsers [("john", "h1")] ⟨none, none⟩).2.file := by
  have htr : storeUsersTrace [("john", "h1")] ⟨none, none⟩
      = [⟨none, none⟩, ⟨some .unparsable, none⟩,
         ⟨some (.parsed (.dict initFileData)), none⟩,
         ⟨some (.parsed (.dict initFileData)), some .unparsable⟩,
         ⟨some (.parsed (.dict initFileData)),
          some (.parsed (.dict [("version", .num 3), ("users", .dict [("john", .str "h1")])]))⟩,
         ⟨some (.parsed (.dict [("version", .num 3), ("users", .dict [("john", .str "h1")])])),
          none⟩] := rfl
  refine ⟨?_, rfl, ?_, by simp, ?_⟩
  · rw [htr]
    exact List.mem_cons_of_mem _ (List.mem_cons_self _ _)
  · rw [htr]
    exact List.mem_cons_of_mem _ (List.mem_cons_of_mem _ (List.mem_cons_self _ _))
  · have hfin : (storeUsers [("john", "h1")] ⟨none, none⟩).2.file
        = some (.parsed (.dict [("version", .num 3), ("users", .dict [("john", .str "h1")])])) := rfl
    rw [hfin]
    simp [initFileData]

/-- C7 (amended): every mutating operation persists solely through
`_storeUsers`.  When the target file already exists, a reader of the
canonical path can observe only the prior file or the fully persisted
new file: the atomic rename of the complete temporary sibling is the
only step that changes the canonical path, so no half-written state is
observable there and the operation either fully persists or leaves the
prior file intact.  When no file exists, the initial file (version 3,
empty users) is written in place at the canonical path before the
rename, so a reader can observe a half-written (unparsable) canonical
file — that torn state really is in the trace — and then the complete
initial file, which denotes the same empty users mapping as the absent
file; apart from that torn state, every observable canonical state
denotes either the prior users mapping or the new one. -/
theorem storeUsers_atomic
    (users : Users) (fs : FS) (d : Users)
    (hload : loadUsers fs.file = .ok d) :
    (storeUsers users fs).1 = .ok () ∧
    loadUsers (storeUsers users fs).2.file = .ok users ∧
    (fs.file.isSome → ∀ s ∈ storeUsersTrace users fs,
        s.file = fs.file ∨ s.file = (storeUsers users fs).2.file) ∧
    (∀ s ∈ storeUsersTrace users fs,
        loadUsers s.file = .ok d ∨ loadUsers s.file = .ok users ∨
          (fs.file = none ∧ s.file = some .unparsable)) ∧
    (fs.file = none → (⟨some .unparsable, fs.temp⟩ : FS) ∈ storeUsersTrace users fs) := by
  obtain ⟨hok, hload', _⟩ := storeUsers_ok users hload
  have hload2 := hload'
  cases hf : fs.file with
  | none =>
      have hd : d = [] := by
        rw [hf] at hload
        simp [loadUsers] at hload
        exact hload
      have hfin : (storeUsers users fs).2.file
          = some (.parsed (.dict (dictSet initFileData "users" (usersToJVal users)))) := by
        simp [storeUsers, hf]
      rw [hfin] at hload2
      have htr : storeUsersTrace users fs
          = [fs, ⟨some .unparsable, fs.temp⟩,
             ⟨some (.parsed (.dict initFileData)), fs.temp⟩,
             ⟨some (.parsed (.dict initFileData)), some .unparsable⟩,
             ⟨some (.parsed (.dict initFileData)),
              some (.parsed (.dict (dictSet initFileData "users" (usersToJVal users))))⟩,
             ⟨some (.parsed (.dict (dictSet initFileData "users" (usersToJVal users)))),
              none⟩] := by
        simp [storeUsersTrace, hf]
      have hinit : loadUsers (some (.parsed (.dict initFileData))) = .ok [] := rfl
      refine ⟨hok, hload', ?_, ?_, ?_⟩
      · intro hcon
        simp at hcon
      · intro s hs
        rw [htr] at hs
        simp only [List.mem_cons, List.not_mem_nil, or_false] at hs
        rcases hs with rfl | rfl | rfl | rfl | rfl | rfl
        · exact Or.inl hload
        · exact Or.inr (Or.inr ⟨rfl, rfl⟩)
        · exact Or.inl (by rw [hd]; exact hinit)
        · exact Or.inl (by rw [hd]; exact hinit)
        · exact Or.inl (by rw [hd]; exact hinit)
        · exact Or.inr (Or.inl hload2)
      · intro _
        rw [htr]
        exact List.mem_cons_of_mem _ (List.mem_cons_self _ _)
  | some fc =>
      obtain ⟨data, uj, rfl, hv, hu, ha⟩ := loadUsers_ok_inv (hf ▸ hload)
      have hfin : (storeUsers users fs).2.file
          = some (.parsed (.dict (dictSet data "users" (usersToJVal users)))) := by
        simp [storeUsers, hf]
      rw [hfin] at hload2
      have htr : storeUsersTrace users fs
          = [fs, ⟨some (.parsed (.dict data)), some .unparsable⟩,
             ⟨some (.parsed (.dict data)),
              some (.parsed (.dict (dictSet data "users" (usersToJVal users))))⟩,
             ⟨some (.parsed (.dict (dictSet data "users" (usersToJVal users)))),
              none⟩] := by
        simp [storeUsersTrace, hf]
      refine ⟨hok, hload', ?_, ?_, ?_⟩
      · intro _ s hs
        rw [htr] at hs
        simp only [List.mem_cons, List.not_mem_nil, or_false] at hs
        rcases hs with rfl | rfl | rfl | rfl
        · exact Or.inl hf
        · exact Or.inl rfl
        · exact Or.inl rfl
        · exact Or.inr (by rw [hfin])
      · intro s hs
        rw [htr] at hs
        simp only [List.mem_cons, List.not_mem_nil, or_false] at hs
        rcases hs with rfl | rfl | rfl | rfl
        · exact Or.inl hload
        · exact Or.inl (by rw [hf] at hload; exact hload)
        · exact Or.inl (by rw [hf] at hload; exact hload)
        · exact Or.inr (Or.inl hload2)
      · intro hcon
        simp at hcon

/-- Witness for C7 (amended) at concrete inputs, exercising the
absent-file branch where the torn canonical state is observable. -/
theorem storeUsers_atomic_witness :
    (storeUsers [("solo", "new:h")] ⟨none, none⟩).1 = .ok () ∧
    loadUsers (storeUsers [("solo", "new:h")] ⟨none, none⟩).2.file = .ok [("solo", "new:h")] ∧
    ((⟨none, none⟩ : FS).file.isSome →
      ∀ s ∈ storeUsersTrace [("solo", "new:h")] ⟨none, none⟩,
        s.file = (⟨none, none⟩ : FS).file
          ∨ s.file = (storeUsers [("solo", "new:h")] ⟨none, none⟩).2.file) ∧
    (∀ s ∈ storeUsersTrace [("solo", "new:h")] ⟨none, none⟩,
        loadUsers s.file = .ok [] ∨ loadUsers s.file = .ok [("solo", "new:h")] ∨
          ((⟨none, none⟩ : FS).file = none ∧ s.file = some .unparsable)) ∧
    ((⟨none, none⟩ : FS).file = none →
      (⟨some .unparsable, none⟩ : FS) ∈ storeUsersTrace [("solo", "new:h")] ⟨none, none⟩) :=
  storeUsers_atomic [("solo", "new:h")] ⟨none, none⟩ [] (by decide)

end MetastreamsPasswd
